import Mathlib

/-!
# Rotating TLS credentials (loopholelabs/tls)

A shallow embedding of `pkg/config` (`NewClient`, `config.Config`, `config.Stop`,
`config.rotate`) and of its twin `pkg/client` (`NewConfig`, `Config.Config`,
`Config.Stop`, `Config.rotate`), which differ only in the texts of their error
messages and in the name of the loader method.

* Go values: an error is a tree of `fmt.Errorf("...%w", err)` wrappers over a
  loader error; `*tls.Certificate` and `*x509.CertPool` are pointers (`none` is nil).
* A `Loader` is given by what its calls return, in call order.
* The credential, its background task and the callers of `Stop` form a transition
  system: `step` fires one event, `run` a schedule of events.
* The read/write lock discipline of the certificate callback and of the write-back
  in `rotate` is embedded statement by statement in `Mem`.
-/

set_option linter.dupNamespace false

namespace TLS

/-! ## Go values -/

/-- Go `error` values: `base` is an error produced by a loader, `wrapf pre inner` is
`fmt.Errorf(pre + "%w", inner)`. -/
inductive GoError where
  | base (msg : String)
  | wrapf (pre : String) (inner : GoError)
  deriving DecidableEq, Repr

/-- The `Error()` text: `%w` prints the text of the wrapped error. -/
def GoError.Error : GoError → String
  | .base msg => msg
  | .wrapf pre inner => pre ++ inner.Error

/-- The `errors.Unwrap` of an error: the operand of `%w`, nil for an unwrapped error. -/
def GoError.Unwrap : GoError → Option GoError
  | .base _ => none
  | .wrapf _ inner => some inner

/-- A `*tls.Certificate`: nil or the address of a certificate. -/
abbrev CertPtr := Option Nat

/-- A `*x509.CertPool`: nil or the address of a pool. -/
abbrev PoolPtr := Option Nat

/-- The `Loader` interface (`loader.Loader`, `client.Loader`), given by the Go result
pairs of its calls: `RootCA` is what the `RootCA(ctx)` call returns, and
`Certificate k` what the call number `k` of `Certificate(ctx)` (in package client:
`ClientCertificate(ctx)`) returns, call 0 being the first one. A call fails when the
error of its pair is not nil. -/
structure Loader where
  RootCA : PoolPtr × Option GoError
  Certificate : Nat → CertPtr × Option GoError

/-- The two engines of the repository: package `config` (`NewClient`) and package
`client` (`NewConfig`). -/
inductive Pkg where
  | config
  | client
  deriving DecidableEq, Repr

/-- The format text before `%w` where the constructor wraps a `RootCA` error. -/
def rootCAMsg : Pkg → String
  | .config => "failed to load root ca: "
  | .client => "failed to load root CA: "

/-- The format text before `%w` where the constructor wraps a certificate error. -/
def certificateMsg : Pkg → String
  | .config => "failed to load client certificate and key: "
  | .client => "failed to load client certificate and key: "

/-- The format text before `%w` where `rotate` wraps a certificate error. -/
def rotateMsg : Pkg → String
  | .config => "failed to load certificate: "
  | .client => "failed to load client certificate and key: "

/-- The fields of `tls.Config` that the constructor sets. `GetClientCertificate` is a
closure over the credential and is embedded as the function `GetClientCertificate`. -/
structure TLSConfig where
  RootCAs : PoolPtr
  deriving DecidableEq, Repr

/-- The struct `config` of package config (`Config` of package client). `ctxDone` is the
state of `t.ctx` (true once `t.cancel` has run), `wg` the counter of `t.wg`; the lock
`t.mu` is embedded in `Mem`. -/
structure Config where
  interval : Int
  loader : Loader
  certificate : CertPtr
  tlsConfig : Option TLSConfig
  ctxDone : Bool
  wg : Int
  err : Option GoError

/-- The method `Config()`: returns `t.tlsConfig` (`t.config` in package client). -/
def Config.Config (t : Config) : Option TLSConfig :=
  t.tlsConfig

/-- The closure stored in `GetClientCertificate`: reads `t.certificate` and `t.err`
inside one read-lock section and returns the pair. -/
def GetClientCertificate (t : Config) : CertPtr × Option GoError :=
  (t.certificate, t.err)

/-! ## The transition system -/

/-- Where the goroutine `rotate` stands. -/
inductive Task where
  | notStarted
  | selecting
  | loading (k : Nat)
  | exited
  deriving DecidableEq, Repr

/-- A credential together with its task and the bookkeeping of what has happened:
the numbers of `RootCA` and `Certificate` calls made, of `go t.rotate()` statements
executed, of `wg.Done()` calls executed, of `Stop` callers that have cancelled and
not yet returned from `wg.Wait()`, and whether a Go panic has occurred. -/
structure System where
  pkg : Pkg
  t : Config
  task : Task
  rootCACalls : Nat
  certCalls : Nat
  tasksStarted : Nat
  doneCalls : Nat
  waiters : Nat
  panicked : Bool

/-- What a constructor call leaves: the returned pointer (`none` is nil), the returned
error, and the system after the call. -/
structure NewResult where
  client : Option Config
  err : Option GoError
  sys : System

/-- The constructors `NewClient` (package config) and `NewConfig` (package client). -/
def New (pkg : Pkg) (loader : Loader) (interval : Int) : NewResult :=
  -- t := &Client{config: &config{interval: interval, loader: loader}}
  -- t.ctx, t.cancel = context.WithCancel(context.Background())
  let t : Config :=
    { interval := interval, loader := loader, certificate := none, tlsConfig := none,
      ctxDone := false, wg := 0, err := none }
  let w : System :=
    { pkg := pkg, t := t, task := .notStarted, rootCACalls := 0, certCalls := 0,
      tasksStarted := 0, doneCalls := 0, waiters := 0, panicked := false }
  -- rootCA, err := t.loader.RootCA(t.ctx)
  let w : System := { w with rootCACalls := w.rootCACalls + 1 }
  match t.loader.RootCA with
  | (_, some err) =>
    { client := none, err := some (.wrapf (rootCAMsg pkg) err), sys := w }
  | (rootCA, none) =>
    -- t.certificate, err = t.loader.Certificate(t.ctx)
    let r := t.loader.Certificate w.certCalls
    let t : Config := { t with certificate := r.1 }
    let w : System := { w with t := t, certCalls := w.certCalls + 1 }
    match r.2 with
    | some err =>
      { client := none, err := some (.wrapf (certificateMsg pkg) err), sys := w }
    | none =>
      -- t.tlsConfig = &tls.Config{RootCAs: rootCA, GetClientCertificate: ...}
      let t : Config := { t with tlsConfig := some { RootCAs := rootCA } }
      -- t.wg.Add(1)
      let t : Config := { t with wg := t.wg + 1 }
      -- go t.rotate()
      let w : System := { w with t := t, task := .selecting, tasksStarted := w.tasksStarted + 1 }
      { client := some t, err := none, sys := w }

/-- The constructor of package config. -/
def NewClient (loader : Loader) (interval : Int) : NewResult :=
  New .config loader interval

/-- The constructor of package client. -/
def NewConfig (loader : Loader) (interval : Int) : NewResult :=
  New .client loader interval

/-- The write-back of `rotate` after `t.loader.Certificate(t.ctx)` has returned `r`:
with an error, `t.err` is set to the wrapped error inside one exclusive section;
without, `t.certificate` is replaced and `t.err` is cleared inside one exclusive
section. -/
def writeBack (pkg : Pkg) (t : Config) (r : CertPtr × Option GoError) : Config :=
  match r.2 with
  | some err => { t with err := some (.wrapf (rotateMsg pkg) err) }
  | none => { t with certificate := r.1, err := none }

/-- The method `wg.Done()`, which is `wg.Add(-1)`: the counter is decremented, and the
call panics when the counter has become negative. -/
def wgDone (s : System) : System :=
  if s.t.wg - 1 < 0 then
    { s with t := { s.t with wg := s.t.wg - 1 }, doneCalls := s.doneCalls + 1,
             panicked := true }
  else
    { s with t := { s.t with wg := s.t.wg - 1 }, doneCalls := s.doneCalls + 1 }

/-- The events of a running credential.

* `timerFired`: the select of `rotate` takes the case `<-time.After(t.interval)` and
  the task calls `t.loader.Certificate(t.ctx)`;
* `loadReturned`: that call returns and the task writes the result back;
* `ctxDone`: the select of `rotate` takes the case `<-t.ctx.Done()`, the task returns
  and its deferred `t.wg.Done()` runs;
* `stopCancel`: a caller of `Stop()` executes `t.cancel()`;
* `stopReturn`: the `t.wg.Wait()` of a caller of `Stop()` returns, and so does `Stop()`. -/
inductive Event where
  | timerFired
  | loadReturned
  | ctxDone
  | stopCancel
  | stopReturn
  deriving DecidableEq, Repr

/-- One event. `none` means that the event cannot happen in `s`. The timer case may be
taken whenever the task is in its select, whether or not the context is cancelled:
Go chooses among the ready cases of a select at random, and nothing in the source
orders the timer after the cancellation. After a panic nothing happens. -/
def step (s : System) (e : Event) : Option System :=
  if s.panicked then none else
  match e with
  | .timerFired =>
    match s.task with
    | .selecting => some { s with task := .loading s.certCalls, certCalls := s.certCalls + 1 }
    | _ => none
  | .loadReturned =>
    match s.task with
    | .loading k =>
      some { s with t := writeBack s.pkg s.t (s.t.loader.Certificate k), task := .selecting }
    | _ => none
  | .ctxDone =>
    match s.task with
    | .selecting => if s.t.ctxDone then some (wgDone { s with task := .exited }) else none
    | _ => none
  | .stopCancel =>
    some { s with t := { s.t with ctxDone := true }, waiters := s.waiters + 1 }
  | .stopReturn =>
    if 0 < s.waiters ∧ s.t.wg = 0 then some { s with waiters := s.waiters - 1 } else none

/-- A schedule of events, fired in order; `none` when one of them cannot happen. -/
def run : System → List Event → Option System
  | s, [] => some s
  | s, e :: es =>
    match step s e with
    | none => none
    | some s' => run s' es

/-- A loader for examples: the root pool is at address 7, the call number `k` of
`Certificate` returns the certificate at address `k + 1`. -/
def loaderOK : Loader :=
  { RootCA := (some 7, none), Certificate := fun k => (some (k + 1), none) }

/-- A loader whose `RootCA` call fails. -/
def loaderNoRoot : Loader :=
  { RootCA := (none, some (.base "open ca.pem: no such file")),
    Certificate := fun k => (some (k + 1), none) }

/-- A loader whose `RootCA` call succeeds and whose first `Certificate` call fails. -/
def loaderNoCert : Loader :=
  { RootCA := (some 7, none),
    Certificate := fun _ => (none, some (.base "open cert.pem: no such file")) }

/-- A loader whose refreshes fail at calls 2 and 3 and succeed otherwise. -/
def loaderFlaky : Loader :=
  { RootCA := (some 7, none),
    Certificate := fun k =>
      if k = 2 ∨ k = 3 then (none, some (.base "connection refused")) else (some (k + 1), none) }

/-! ## Specification-side functions -/

/-- The certificate returned by the most recent successful call among the calls
`0, ..., n` of the loader, call 0 (the one of the constructor) being successful. -/
def lastLoaded (loader : Loader) : Nat → CertPtr
  | 0 => (loader.Certificate 0).1
  | n + 1 =>
    match (loader.Certificate (n + 1)).2 with
    | none => (loader.Certificate (n + 1)).1
    | some _ => lastLoaded loader n

/-- The number of `Certificate` calls that have returned. -/
def completed (s : System) : Nat :=
  match s.task with
  | .loading _ => s.certCalls - 1
  | _ => s.certCalls

/-- The lifecycle state Stopped: the context is cancelled, the task has exited and the
wait-group counter is back to zero, which is the state in which `Stop()` returns. -/
def Stopped (s : System) : Prop :=
  s.t.ctxDone = true ∧ s.task = .exited ∧ s.t.wg = 0

instance (s : System) : Decidable (Stopped s) := by
  unfold Stopped
  infer_instance

/-- The error that the callback returns after refresh number `n` has completed, as
the specification words it: nil when no refresh has run yet (`n = 0`) or refresh `n`
succeeded, and the wrapped error of refresh `n` when it failed. -/
def lastErr (pkg : Pkg) (loader : Loader) : Nat → Option GoError
  | 0 => none
  | n + 1 =>
    match (loader.Certificate (n + 1)).2 with
    | none => none
    | some e => some (.wrapf (rotateMsg pkg) e)

/-- The pair (certificate, error) served after one more load result `r` has been
written back over the pair `p`: a successful load replaces the certificate and clears
the error, a failed one keeps the certificate and sets the wrapped error. -/
def updatePair (pkg : Pkg) (p : CertPtr × Option GoError) (r : CertPtr × Option GoError) :
    CertPtr × Option GoError :=
  match r.2 with
  | some e => (p.1, some (.wrapf (rotateMsg pkg) e))
  | none => (r.1, none)

/-- The pair `p` updated, in call order, by the results of the `n` loader calls
number `c`, `c + 1`, ..., `c + n - 1`. -/
def updatedBy (pkg : Pkg) (loader : Loader) (p : CertPtr × Option GoError) (c : Nat) :
    Nat → CertPtr × Option GoError
  | 0 => p
  | n + 1 => updatePair pkg (updatedBy pkg loader p c n) (loader.Certificate (c + n))

/-- The invariant of a running credential. -/
structure Inv (s : System) : Prop where
  noPanic : s.panicked = false
  started : s.task ≠ .notStarted
  exitedWg : s.task = .exited → s.t.wg = 0 ∧ s.doneCalls = 1 ∧ s.t.ctxDone = true
  liveWg : s.task ≠ .exited → s.t.wg = 1 ∧ s.doneCalls = 0
  inflight : ∀ k, s.task = .loading k → 1 ≤ k ∧ k + 1 = s.certCalls
  calls : 1 ≤ s.certCalls
  once : s.tasksStarted = 1 ∧ s.rootCACalls = 1
  cert : s.t.certificate = lastLoaded s.t.loader (completed s - 1)
  err : s.t.err = lastErr s.pkg s.t.loader (completed s - 1)

/-! ## The lock discipline -/

/-- Where one call of the closure `GetClientCertificate` stands: before
`t.mu.RLock()`, before `cert = t.certificate`, before `err = t.err`, before
`t.mu.RUnlock()`, or returned. -/
inductive CallPC where
  | atRLock
  | atReadCert
  | atReadErr
  | atRUnlock
  | returned
  deriving DecidableEq, Repr

/-- One call of the closure: where it stands and its named results `cert` and `err`,
which are nil when the call starts. -/
structure Call where
  pc : CallPC
  cert : CertPtr
  err : Option GoError
  deriving DecidableEq, Repr

/-- Where the write-back of `rotate` stands: before `t.mu.Lock()` (of the branch that
`err != nil` selects), before `t.certificate = certificate`, before the assignment
to `t.err`, before `t.mu.Unlock()`, or past it. -/
inductive WritePC where
  | atLock
  | atWriteCert
  | atWriteErr
  | atUnlock
  | done
  deriving DecidableEq, Repr

/-- The credential with its lock `t.mu` (the number of read locks held and whether
the write lock is held), the task at its write-back of the loader result `result`,
and the callback calls under way. -/
structure Mem where
  pkg : Pkg
  t : Config
  readers : Nat
  writer : Bool
  result : CertPtr × Option GoError
  task : WritePC
  calls : List Call

/-- The threads: the task and the callback calls. -/
inductive Thread where
  | task
  | call (i : Nat)
  deriving DecidableEq, Repr

/-- Whether a call is between its `RLock` and its `RUnlock`. -/
def Call.holdsRLock (c : Call) : Bool :=
  match c.pc with
  | .atReadCert => true
  | .atReadErr => true
  | .atRUnlock => true
  | _ => false

/-- The next statement of the call `i`, which is `c`. `RLock` waits while the write
lock is held. -/
def callStep (m : Mem) (i : Nat) (c : Call) : Option Mem :=
  match c.pc with
  | .atRLock =>
    if m.writer then none
    else some { m with readers := m.readers + 1,
                       calls := m.calls.set i { c with pc := .atReadCert } }
  | .atReadCert =>
    some { m with calls := m.calls.set i { c with pc := .atReadErr, cert := m.t.certificate } }
  | .atReadErr =>
    some { m with calls := m.calls.set i { c with pc := .atRUnlock, err := m.t.err } }
  | .atRUnlock =>
    some { m with readers := m.readers - 1,
                  calls := m.calls.set i { c with pc := .returned } }
  | .returned => none

/-- The next statement of the write-back. `Lock` waits while the write lock or a read
lock is held. -/
def taskStep (m : Mem) : Option Mem :=
  match m.task with
  | .atLock =>
    if m.writer = true ∨ m.readers ≠ 0 then none
    else
      match m.result.2 with
      | some _ => some { m with writer := true, task := .atWriteErr }
      | none => some { m with writer := true, task := .atWriteCert }
  | .atWriteCert =>
    some { m with t := { m.t with certificate := m.result.1 }, task := .atWriteErr }
  | .atWriteErr =>
    match m.result.2 with
    | some err =>
      some { m with t := { m.t with err := some (.wrapf (rotateMsg m.pkg) err) },
                    task := .atUnlock }
    | none => some { m with t := { m.t with err := none }, task := .atUnlock }
  | .atUnlock => some { m with writer := false, task := .done }
  | .done => none

/-- One statement of one thread; `none` when the thread waits or has finished. -/
def mstep (m : Mem) : Thread → Option Mem
  | .task => taskStep m
  | .call i =>
    match m.calls[i]? with
    | none => none
    | some c => callStep m i c

/-- An interleaving: the threads take their next statements in the given order. -/
def mrun : Mem → List Thread → Option Mem
  | m, [] => some m
  | m, th :: ths =>
    match mstep m th with
    | none => none
    | some m' => mrun m' ths

/-- The start: the credential `t`, the lock free, the task about to write back the
loader result `r`, and `n` callback calls about to start. -/
def Mem.init (pkg : Pkg) (t : Config) (r : CertPtr × Option GoError) (n : Nat) : Mem :=
  { pkg := pkg, t := t, readers := 0, writer := false, result := r, task := .atLock,
    calls := List.replicate n { pc := .atRLock, cert := none, err := none } }

/-- The invariant of the interleavings, relative to the credential `t` at the start
and the loader result `r`. -/
structure MInv (pkg : Pkg) (t : Config) (r : CertPtr × Option GoError) (m : Mem) : Prop where
  fixed : m.pkg = pkg ∧ m.result = r
  count : m.readers = m.calls.countP Call.holdsRLock
  wheld : m.writer = true ↔
    (m.task = .atWriteCert ∨ m.task = .atWriteErr ∨ m.task = .atUnlock)
  excl : m.writer = true → m.readers = 0
  memLock : m.task = .atLock → m.t.certificate = t.certificate ∧ m.t.err = t.err
  memCert : m.task = .atWriteCert →
    m.t.certificate = t.certificate ∧ m.t.err = t.err ∧ r.2 = none
  memErr : m.task = .atWriteErr →
    m.t.certificate = (writeBack pkg t r).certificate ∧ m.t.err = t.err
  memDone : m.task = .atUnlock ∨ m.task = .done →
    m.t.certificate = (writeBack pkg t r).certificate ∧ m.t.err = (writeBack pkg t r).err
  calls : ∀ c ∈ m.calls,
    (c.pc = .atReadErr → c.cert = m.t.certificate) ∧
    (c.pc = .atRUnlock → c.cert = m.t.certificate ∧ c.err = m.t.err) ∧
    (c.pc = .returned →
      (c.cert, c.err) = GetClientCertificate t ∨
      (c.cert, c.err) = GetClientCertificate (writeBack pkg t r))

/-! ## Schedules and credentials for the instances -/

/-- A schedule with three timer firings: the first refresh succeeds, the second fails,
the third is in flight. -/
def scheduleThree : List Event :=
  [.timerFired, .loadReturned, .timerFired, .loadReturned, .timerFired]

/-- A schedule with four refreshes: the first succeeds, the second and third fail, the
fourth succeeds. -/
def scheduleFour : List Event :=
  [.timerFired, .loadReturned, .timerFired, .loadReturned, .timerFired, .loadReturned,
   .timerFired, .loadReturned]

/-- A schedule with two refreshes, the second one failing, and a `Stop()`. -/
def scheduleStop : List Event :=
  [.timerFired, .loadReturned, .timerFired, .loadReturned, .stopCancel, .ctxDone, .stopReturn]

/-- A schedule after a cancellation made while a load is in flight: the load returns,
the select takes the timer case once more, that load returns too, and only then the
task exits and `Stop()` returns. -/
def scheduleAfterCancel : List Event :=
  [.loadReturned, .timerFired, .loadReturned, .ctxDone, .stopReturn]

/-- A credential whose last refresh failed: certificate 2 is cached with an error. -/
def cachedFailed : Config :=
  { interval := 5, loader := loaderFlaky, certificate := some 2,
    tlsConfig := some { RootCAs := some 7 }, ctxDone := false, wg := 1,
    err := some (.wrapf "failed to load certificate: " (.base "connection refused")) }

/-- An interleaving of two callback calls with one write-back: the call 0 runs before
the write-back and the call 1 after it. -/
def scheduleCallsAround : List Thread :=
  [.call 0, .call 0, .call 0, .call 0, .task, .task, .task, .task,
   .call 1, .call 1, .call 1, .call 1]

/-! # Theorems -/

/-! ## Basic facts about `step` and `run` -/

theorem step_cases {s s' : System} {e : Event} (h : step s e = some s') :
    s.panicked = false ∧
    ((e = .timerFired ∧ s.task = .selecting ∧
        s' = { s with task := .loading s.certCalls, certCalls := s.certCalls + 1 }) ∨
     (∃ k, e = .loadReturned ∧ s.task = .loading k ∧
        s' = { s with t := writeBack s.pkg s.t (s.t.loader.Certificate k), task := .selecting }) ∨
     (e = .ctxDone ∧ s.task = .selecting ∧ s.t.ctxDone = true ∧
        s' = wgDone { s with task := .exited }) ∨
     (e = .stopCancel ∧
        s' = { s with t := { s.t with ctxDone := true }, waiters := s.waiters + 1 }) ∨
     (e = .stopReturn ∧ 0 < s.waiters ∧ s.t.wg = 0 ∧
        s' = { s with waiters := s.waiters - 1 })) := by
  unfold step at h
  split at h
  · exact absurd h (by simp)
  · rename_i hp
    refine ⟨by simpa using hp, ?_⟩
    cases e with
    | timerFired =>
      left
      cases ht : s.task <;> simp [ht] at h
      exact ⟨rfl, rfl, h.symm⟩
    | loadReturned =>
      right; left
      cases ht : s.task <;> simp [ht] at h
      rename_i k
      exact ⟨k, rfl, rfl, h.symm⟩
    | ctxDone =>
      right; right; left
      cases ht : s.task <;> simp [ht] at h
      exact ⟨rfl, rfl, h.1, h.2.symm⟩
    | stopCancel =>
      right; right; right; left
      simp at h
      exact ⟨rfl, h.symm⟩
    | stopReturn =>
      right; right; right; right
      simp at h
      exact ⟨rfl, h.1.1, h.1.2, h.2.symm⟩

theorem run_cons_inv {s s' : System} {e : Event} {es : List Event}
    (h : run s (e :: es) = some s') : ∃ s1, step s e = some s1 ∧ run s1 es = some s' := by
  cases hs : step s e with
  | none => simp [run, hs] at h
  | some s1 => exact ⟨s1, rfl, by simpa [run, hs] using h⟩

/-- A property kept by every step is kept by every schedule. -/
theorem run_preserves (P : System → Prop)
    (hstep : ∀ s e s', P s → step s e = some s' → P s') :
    ∀ (evs : List Event) (s s' : System), P s → run s evs = some s' → P s' := by
  intro evs
  induction evs with
  | nil =>
    intro s s' hP h
    simp [run] at h
    exact h ▸ hP
  | cons e es ih =>
    intro s s' hP h
    obtain ⟨s1, h1, h2⟩ := run_cons_inv h
    exact ih s1 s' (hstep s e s1 hP h1) h2

/-! ## The constructor -/

theorem New_rootCA_fail (pkg : Pkg) (loader : Loader) (interval : Int) (e : GoError)
    (h : loader.RootCA.2 = some e) :
    (New pkg loader interval).client = none ∧
    (New pkg loader interval).err = some (.wrapf (rootCAMsg pkg) e) ∧
    (New pkg loader interval).sys.task = .notStarted ∧
    (New pkg loader interval).sys.rootCACalls = 1 ∧
    (New pkg loader interval).sys.certCalls = 0 ∧
    (New pkg loader interval).sys.tasksStarted = 0 ∧
    (New pkg loader interval).sys.t.ctxDone = false := by
  rcases hR : loader.RootCA with ⟨p, _ | e'⟩
  · rw [hR] at h; simp at h
  · rw [hR] at h
    simp at h
    subst h
    simp [New, hR]

theorem New_cert_fail (pkg : Pkg) (loader : Loader) (interval : Int) (e : GoError)
    (hR : loader.RootCA.2 = none) (hC : (loader.Certificate 0).2 = some e) :
    (New pkg loader interval).client = none ∧
    (New pkg loader interval).err = some (.wrapf (certificateMsg pkg) e) ∧
    (New pkg loader interval).sys.task = .notStarted ∧
    (New pkg loader interval).sys.rootCACalls = 1 ∧
    (New pkg loader interval).sys.certCalls = 1 ∧
    (New pkg loader interval).sys.tasksStarted = 0 ∧
    (New pkg loader interval).sys.t.ctxDone = false := by
  rcases hR' : loader.RootCA with ⟨p, _ | e'⟩
  · simp [New, hR', hC]
  · rw [hR'] at hR; simp at hR

theorem New_ok (pkg : Pkg) (loader : Loader) (interval : Int)
    (hR : loader.RootCA.2 = none) (hC : (loader.Certificate 0).2 = none) :
    (New pkg loader interval).err = none ∧
    (New pkg loader interval).client = some (New pkg loader interval).sys.t ∧
    (New pkg loader interval).sys =
      { pkg := pkg,
        t := { interval := interval, loader := loader,
               certificate := (loader.Certificate 0).1,
               tlsConfig := some { RootCAs := loader.RootCA.1 },
               ctxDone := false, wg := 1, err := none },
        task := .selecting, rootCACalls := 1, certCalls := 1, tasksStarted := 1,
        doneCalls := 0, waiters := 0, panicked := false } := by
  rcases hR' : loader.RootCA with ⟨p, _ | e'⟩
  · simp [New, hR', hC]
  · rw [hR'] at hR; simp at hR

/-- A constructor call returns a credential only when both loads succeeded. -/
theorem New_client_some (pkg : Pkg) (loader : Loader) (interval : Int)
    (h : (New pkg loader interval).err = none) :
    loader.RootCA.2 = none ∧ (loader.Certificate 0).2 = none := by
  rcases hR : loader.RootCA with ⟨p, _ | e'⟩
  · rcases hC : (loader.Certificate 0).2 with _ | e
    · exact ⟨rfl, rfl⟩
    · have := (New_cert_fail pkg loader interval e (by rw [hR]) hC).2.1
      rw [this] at h; simp at h
  · have := (New_rootCA_fail pkg loader interval e' (by rw [hR])).2.1
    rw [this] at h; simp at h

theorem Inv_New (pkg : Pkg) (loader : Loader) (interval : Int)
    (h : (New pkg loader interval).err = none) : Inv (New pkg loader interval).sys := by
  obtain ⟨hR, hC⟩ := New_client_some pkg loader interval h
  rw [(New_ok pkg loader interval hR hC).2.2]
  constructor <;> simp [completed, lastLoaded, lastErr]

/-! ## The write-back and the invariant -/

@[simp] theorem writeBack_interval (pkg : Pkg) (t : Config) (r : CertPtr × Option GoError) :
    (writeBack pkg t r).interval = t.interval := by
  unfold writeBack; split <;> rfl

@[simp] theorem writeBack_loader (pkg : Pkg) (t : Config) (r : CertPtr × Option GoError) :
    (writeBack pkg t r).loader = t.loader := by
  unfold writeBack; split <;> rfl

@[simp] theorem writeBack_tlsConfig (pkg : Pkg) (t : Config) (r : CertPtr × Option GoError) :
    (writeBack pkg t r).tlsConfig = t.tlsConfig := by
  unfold writeBack; split <;> rfl

@[simp] theorem writeBack_ctxDone (pkg : Pkg) (t : Config) (r : CertPtr × Option GoError) :
    (writeBack pkg t r).ctxDone = t.ctxDone := by
  unfold writeBack; split <;> rfl

@[simp] theorem writeBack_wg (pkg : Pkg) (t : Config) (r : CertPtr × Option GoError) :
    (writeBack pkg t r).wg = t.wg := by
  unfold writeBack; split <;> rfl

theorem writeBack_ok (pkg : Pkg) (t : Config) (r : CertPtr × Option GoError)
    (h : r.2 = none) :
    (writeBack pkg t r).certificate = r.1 ∧ (writeBack pkg t r).err = none := by
  simp [writeBack, h]

theorem writeBack_fail (pkg : Pkg) (t : Config) (r : CertPtr × Option GoError) (e : GoError)
    (h : r.2 = some e) :
    (writeBack pkg t r).certificate = t.certificate ∧
    (writeBack pkg t r).err = some (.wrapf (rotateMsg pkg) e) := by
  simp [writeBack, h]

theorem Inv_step (s : System) (e : Event) (s' : System) (hI : Inv s)
    (h : step s e = some s') : Inv s' := by
  obtain ⟨_, h | ⟨k, h⟩ | h | h | h⟩ := step_cases h
  · obtain ⟨-, ht, rfl⟩ := h
    have hl := hI.liveWg (by simp [ht])
    have hc := hI.cert
    have he := hI.err
    have h1 := hI.calls
    simp only [completed, ht] at hc he
    constructor <;> simp [completed, hI.noPanic, hl, h1, hI.once, hc, he]
  · obtain ⟨-, ht, rfl⟩ := h
    have hl := hI.liveWg (by simp [ht])
    obtain ⟨hk1, hk⟩ := hI.inflight k ht
    have hc := hI.cert
    have he := hI.err
    simp only [completed, ht] at hc he
    obtain ⟨m, rfl⟩ : ∃ m, k = m + 1 := ⟨k - 1, by omega⟩
    have hcc : s.certCalls - 1 = m + 1 := by omega
    rw [hcc] at hc he
    have hcc2 : s.certCalls - 1 - 1 = m := by omega
    constructor
    · exact hI.noPanic
    · simp
    · simp
    · simp [hl]
    · simp
    · exact hI.calls
    · exact hI.once
    · simp only [completed, writeBack_loader]
      rw [hcc]
      rcases hr : (s.t.loader.Certificate (m + 1)).2 with _ | e
      · rw [(writeBack_ok _ _ _ hr).1]
        simp [lastLoaded, hr]
      · rw [(writeBack_fail _ _ _ e hr).1, hc]
        simp [lastLoaded, hr]
    · simp only [completed, writeBack_loader]
      rw [hcc]
      rcases hr : (s.t.loader.Certificate (m + 1)).2 with _ | e
      · rw [(writeBack_ok _ _ _ hr).2]
        simp [lastErr, hr]
      · rw [(writeBack_fail _ _ _ e hr).2]
        simp [lastErr, hr]
  · obtain ⟨-, ht, hd, rfl⟩ := h
    have hl := hI.liveWg (by simp [ht])
    have hc := hI.cert
    have he := hI.err
    simp only [completed, ht] at hc he
    constructor <;>
      simp [wgDone, completed, hI.noPanic, hl, hI.calls, hI.once, hc, he, hd]
  · obtain ⟨-, rfl⟩ := h
    constructor
    · exact hI.noPanic
    · exact hI.started
    · intro ht
      have := hI.exitedWg ht
      simp [this]
    · exact hI.liveWg
    · exact hI.inflight
    · exact hI.calls
    · exact hI.once
    · exact hI.cert
    · exact hI.err
  · obtain ⟨-, -, -, rfl⟩ := h
    exact ⟨hI.noPanic, hI.started, hI.exitedWg, hI.liveWg, hI.inflight, hI.calls, hI.once,
      hI.cert, hI.err⟩

theorem Inv_run (evs : List Event) (s s' : System) (hI : Inv s) (h : run s evs = some s') :
    Inv s' :=
  run_preserves Inv Inv_step evs s s' hI h

/-! ## Frame and counting lemmas -/

theorem step_frame {s s' : System} {e : Event} (h : step s e = some s') :
    s'.pkg = s.pkg ∧ s'.t.interval = s.t.interval ∧ s'.t.loader = s.t.loader ∧
    s'.t.tlsConfig = s.t.tlsConfig ∧ s'.rootCACalls = s.rootCACalls ∧
    s'.tasksStarted = s.tasksStarted := by
  obtain ⟨_, h | ⟨k, h⟩ | h | h | h⟩ := step_cases h
  · obtain ⟨-, -, rfl⟩ := h; simp
  · obtain ⟨-, -, rfl⟩ := h; simp
  · obtain ⟨-, -, -, rfl⟩ := h
    unfold wgDone
    split <;> simp
  · obtain ⟨-, rfl⟩ := h; simp
  · obtain ⟨-, -, -, rfl⟩ := h; simp

theorem run_frame (evs : List Event) (s s' : System) (h : run s evs = some s') :
    s'.pkg = s.pkg ∧ s'.t.interval = s.t.interval ∧ s'.t.loader = s.t.loader ∧
    s'.t.tlsConfig = s.t.tlsConfig ∧ s'.rootCACalls = s.rootCACalls ∧
    s'.tasksStarted = s.tasksStarted := by
  refine run_preserves (fun x => x.pkg = s.pkg ∧ x.t.interval = s.t.interval ∧
    x.t.loader = s.t.loader ∧ x.t.tlsConfig = s.t.tlsConfig ∧
    x.rootCACalls = s.rootCACalls ∧ x.tasksStarted = s.tasksStarted) ?_ evs s s'
    ⟨rfl, rfl, rfl, rfl, rfl, rfl⟩ h
  intro a e b ha hab
  obtain ⟨h1, h2, h3, h4, h5, h6⟩ := step_frame hab
  exact ⟨h1.trans ha.1, h2.trans ha.2.1, h3.trans ha.2.2.1, h4.trans ha.2.2.2.1,
    h5.trans ha.2.2.2.2.1, h6.trans ha.2.2.2.2.2⟩

theorem step_certCalls {s s' : System} {e : Event} (h : step s e = some s') :
    s'.certCalls = s.certCalls + (if e = .timerFired then 1 else 0) := by
  obtain ⟨_, h | ⟨k, h⟩ | h | h | h⟩ := step_cases h
  · obtain ⟨rfl, -, rfl⟩ := h; simp
  · obtain ⟨rfl, -, rfl⟩ := h; simp
  · obtain ⟨rfl, -, -, rfl⟩ := h
    unfold wgDone
    split <;> simp
  · obtain ⟨rfl, rfl⟩ := h; simp
  · obtain ⟨rfl, -, -, rfl⟩ := h; simp

theorem run_certCalls : ∀ (evs : List Event) (s s' : System), run s evs = some s' →
    s'.certCalls = s.certCalls + evs.count .timerFired := by
  intro evs
  induction evs with
  | nil =>
    intro s s' h
    simp [run] at h
    simp [h]
  | cons e es ih =>
    intro s s' h
    obtain ⟨s1, h1, h2⟩ := run_cons_inv h
    rw [ih s1 s' h2, step_certCalls h1, List.count_cons]
    by_cases he : e = .timerFired
    · simp [he]; omega
    · simp [he]

theorem step_completed {s s' : System} {e : Event} (hI : Inv s) (h : step s e = some s') :
    completed s' = completed s + (if e = .loadReturned then 1 else 0) := by
  obtain ⟨_, h | ⟨k, h⟩ | h | h | h⟩ := step_cases h
  · obtain ⟨rfl, ht, rfl⟩ := h
    simp [completed, ht]
  · obtain ⟨rfl, ht, rfl⟩ := h
    have := hI.inflight k ht
    simp [completed, ht]
    omega
  · obtain ⟨rfl, ht, -, rfl⟩ := h
    unfold wgDone
    split <;> simp [completed, ht]
  · obtain ⟨rfl, rfl⟩ := h
    simp [completed]
  · obtain ⟨rfl, -, -, rfl⟩ := h
    simp [completed]

theorem run_completed : ∀ (evs : List Event) (s s' : System), Inv s → run s evs = some s' →
    completed s' = completed s + evs.count .loadReturned := by
  intro evs
  induction evs with
  | nil =>
    intro s s' _ h
    simp [run] at h
    simp [h]
  | cons e es ih =>
    intro s s' hI h
    obtain ⟨s1, h1, h2⟩ := run_cons_inv h
    rw [ih s1 s' (Inv_step s e s1 hI h1) h2, step_completed hI h1, List.count_cons]
    by_cases he : e = .loadReturned
    · simp [he]; omega
    · simp [he]

/-- The number of completed `Certificate` calls of a freshly constructed credential. -/
theorem completed_New (pkg : Pkg) (loader : Loader) (interval : Int)
    (h : (New pkg loader interval).err = none) :
    completed (New pkg loader interval).sys = 1 ∧ (New pkg loader interval).sys.certCalls = 1 := by
  obtain ⟨hR, hC⟩ := New_client_some pkg loader interval h
  rw [(New_ok pkg loader interval hR hC).2.2]
  simp [completed]

/-- Nothing starts a task that the constructor has not started: from a system whose
task was never started, no schedule makes a loader call or starts one. -/
theorem run_notStarted (evs : List Event) (s s' : System) (ht : s.task = .notStarted)
    (h : run s evs = some s') :
    s'.task = .notStarted ∧ s'.certCalls = s.certCalls ∧ s'.tasksStarted = s.tasksStarted := by
  refine run_preserves (fun x => x.task = .notStarted ∧ x.certCalls = s.certCalls ∧
    x.tasksStarted = s.tasksStarted) ?_ evs s s' ⟨ht, rfl, rfl⟩ h
  intro a e b ha hab
  obtain ⟨_, h | ⟨k, h⟩ | h | h | h⟩ := step_cases hab
  · obtain ⟨-, ht', -⟩ := h
    rw [ha.1] at ht'; exact absurd ht' (by simp)
  · obtain ⟨-, ht', -⟩ := h
    rw [ha.1] at ht'; exact absurd ht' (by simp)
  · obtain ⟨-, ht', -, -⟩ := h
    rw [ha.1] at ht'; exact absurd ht' (by simp)
  · obtain ⟨-, rfl⟩ := h
    exact ha
  · obtain ⟨-, -, -, rfl⟩ := h
    exact ha

/-! ## Construction failures -/

/-- C3: when the `RootCA` call of the loader fails with `e`, the constructor (of either
package) returns a nil credential and the error `fmt.Errorf(rootCAMsg + "%w", e)`,
whose `Unwrap` is `e` and whose text starts with the root-CA message, which differs
from the certificate message; `RootCA` has been called once, `Certificate` not at all,
no task has been started, and no later schedule makes a loader call or starts one. -/
theorem rootCA_failure_aborts_construction (pkg : Pkg) (loader : Loader) (interval : Int)
    (e : GoError) (h : loader.RootCA.2 = some e) :
    (New pkg loader interval).client = none ∧
    (New pkg loader interval).err = some (.wrapf (rootCAMsg pkg) e) ∧
    (New pkg loader interval).err.bind GoError.Unwrap = some e ∧
    (New pkg loader interval).err.map GoError.Error = some (rootCAMsg pkg ++ e.Error) ∧
    rootCAMsg pkg ≠ certificateMsg pkg ∧
    (New pkg loader interval).sys.rootCACalls = 1 ∧
    (New pkg loader interval).sys.certCalls = 0 ∧
    (New pkg loader interval).sys.tasksStarted = 0 ∧
    (New pkg loader interval).sys.task = .notStarted ∧
    ∀ (evs : List Event) (s : System), run (New pkg loader interval).sys evs = some s →
      s.certCalls = 0 ∧ s.tasksStarted = 0 ∧ s.task = .notStarted := by
  obtain ⟨h1, h2, h3, h4, h5, h6, -⟩ := New_rootCA_fail pkg loader interval e h
  refine ⟨h1, h2, by simp [h2, GoError.Unwrap], by simp [h2, GoError.Error], ?_, h4, h5, h6,
    h3, ?_⟩
  · cases pkg <;> decide
  · intro evs s hs
    obtain ⟨a, b, c⟩ := run_notStarted evs _ s h3 hs
    exact ⟨b.trans h5, c.trans h6, a⟩

/-- C3, an instance: a loader whose `RootCA` fails on a missing file. -/
theorem rootCA_failure_aborts_construction_witness :
    (NewClient loaderNoRoot 5).client = none ∧
    (NewClient loaderNoRoot 5).err.map GoError.Error =
      some "failed to load root ca: open ca.pem: no such file" ∧
    (NewClient loaderNoRoot 5).sys.certCalls = 0 ∧
    (NewClient loaderNoRoot 5).sys.tasksStarted = 0 := by
  have h := rootCA_failure_aborts_construction .config loaderNoRoot 5
    (.base "open ca.pem: no such file") rfl
  exact ⟨h.1, h.2.2.2.1, h.2.2.2.2.2.2.1, h.2.2.2.2.2.2.2.1⟩

/-- C4 as stated fails: with a loader whose `RootCA` succeeds and whose first
`Certificate` call fails, both constructors return nil and leave the lifecycle context
uncancelled. -/
theorem certificate_failure_context_not_cancelled :
    loaderNoCert.RootCA.2 = none ∧
    (loaderNoCert.Certificate 0).2 = some (.base "open cert.pem: no such file") ∧
    (NewClient loaderNoCert 5).client = none ∧
    (NewClient loaderNoCert 5).sys.t.ctxDone = false ∧
    (NewConfig loaderNoCert 5).client = none ∧
    (NewConfig loaderNoCert 5).sys.t.ctxDone = false :=
  ⟨rfl, rfl, rfl, rfl, rfl, rfl⟩

/-- C4, amended: when `RootCA` succeeds and the first `Certificate` call fails with `e`,
the constructor returns a nil credential and the error
`fmt.Errorf(certificateMsg + "%w", e)`, whose `Unwrap` is `e`; no task has been
started and none starts later; the failure path makes no call of `cancel`, so the
lifecycle context is still uncancelled when the constructor returns. -/
theorem certificate_failure_aborts_construction (pkg : Pkg) (loader : Loader)
    (interval : Int) (e : GoError)
    (hR : loader.RootCA.2 = none) (hC : (loader.Certificate 0).2 = some e) :
    (New pkg loader interval).client = none ∧
    (New pkg loader interval).err = some (.wrapf (certificateMsg pkg) e) ∧
    (New pkg loader interval).err.bind GoError.Unwrap = some e ∧
    (New pkg loader interval).sys.rootCACalls = 1 ∧
    (New pkg loader interval).sys.certCalls = 1 ∧
    (New pkg loader interval).sys.tasksStarted = 0 ∧
    (New pkg loader interval).sys.task = .notStarted ∧
    (New pkg loader interval).sys.t.ctxDone = false ∧
    ∀ (evs : List Event) (s : System), run (New pkg loader interval).sys evs = some s →
      s.certCalls = 1 ∧ s.tasksStarted = 0 ∧ s.task = .notStarted := by
  obtain ⟨h1, h2, h3, h4, h5, h6, h7⟩ := New_cert_fail pkg loader interval e hR hC
  refine ⟨h1, h2, by simp [h2, GoError.Unwrap], h4, h5, h6, h3, h7, ?_⟩
  intro evs s hs
  obtain ⟨a, b, c⟩ := run_notStarted evs _ s h3 hs
  exact ⟨b.trans h5, c.trans h6, a⟩

/-- C4 amended, an instance: a loader whose certificate file is missing. -/
theorem certificate_failure_aborts_construction_witness :
    (NewConfig loaderNoCert 5).client = none ∧
    (NewConfig loaderNoCert 5).err = some (.wrapf "failed to load client certificate and key: "
      (.base "open cert.pem: no such file")) ∧
    (NewConfig loaderNoCert 5).sys.tasksStarted = 0 ∧
    (NewConfig loaderNoCert 5).sys.t.ctxDone = false := by
  have h := certificate_failure_aborts_construction .client loaderNoCert 5
    (.base "open cert.pem: no such file") rfl rfl
  exact ⟨h.1, h.2.1, h.2.2.2.2.2.1, h.2.2.2.2.2.2.2.1⟩

/-- C8 as stated fails: with the intervals 0 and -3 and a loader whose loads succeed,
both constructors return a credential without error, store that interval and start the
task. -/
theorem nonpositive_interval_accepted :
    (NewClient loaderOK 0).err = none ∧
    (NewClient loaderOK 0).client.map Config.interval = some 0 ∧
    (NewClient loaderOK 0).sys.task = .selecting ∧
    (NewClient loaderOK 0).sys.tasksStarted = 1 ∧
    (NewConfig loaderOK (-3)).err = none ∧
    (NewConfig loaderOK (-3)).client.map Config.interval = some (-3) ∧
    (NewConfig loaderOK (-3)).sys.task = .selecting ∧
    (NewConfig loaderOK (-3)).sys.tasksStarted = 1 := by
  decide

/-- C8, amended: the constructor does not look at the interval. For every interval,
positive or not, and every loader whose `RootCA` call and first `Certificate` call
succeed, it returns a credential and no error, stores the interval as given and
starts the task. -/
theorem constructor_accepts_every_interval (pkg : Pkg) (loader : Loader) (interval : Int)
    (hR : loader.RootCA.2 = none) (hC : (loader.Certificate 0).2 = none) :
    (New pkg loader interval).err = none ∧
    (New pkg loader interval).client = some (New pkg loader interval).sys.t ∧
    (New pkg loader interval).client.map Config.interval = some interval ∧
    (New pkg loader interval).sys.task = .selecting ∧
    (New pkg loader interval).sys.tasksStarted = 1 := by
  obtain ⟨h1, h2, h3⟩ := New_ok pkg loader interval hR hC
  refine ⟨h1, h2, ?_, ?_, ?_⟩
  · rw [h2, h3]; rfl
  · rw [h3]
  · rw [h3]

/-- C8 amended, an instance: the interval -3. -/
theorem constructor_accepts_every_interval_witness :
    (NewClient loaderOK (-3)).err = none ∧
    (NewClient loaderOK (-3)).client.map Config.interval = some (-3) ∧
    (NewClient loaderOK (-3)).sys.task = .selecting := by
  have h := constructor_accepts_every_interval .config loaderOK (-3) rfl rfl
  exact ⟨h.1, h.2.2.1, h.2.2.2.1⟩

/-! ## Refreshes -/

/-- C1: after every schedule of a successfully constructed credential (either package),
the cached certificate is the one returned by the most recent successful load among
the constructor's load and the refreshes completed so far (refresh `n` being call `n`
of the loader); the callback returns that certificate; and the return of an in-flight
refresh that fails is a step that leaves the cached certificate as it was. -/
theorem cache_holds_last_successful_load (pkg : Pkg) (loader : Loader) (interval : Int)
    (evs : List Event) (s : System)
    (hnew : (New pkg loader interval).err = none)
    (hrun : run (New pkg loader interval).sys evs = some s) :
    s.t.certificate = lastLoaded loader (evs.count .loadReturned) ∧
    (GetClientCertificate s.t).1 = lastLoaded loader (evs.count .loadReturned) ∧
    (∀ k, s.task = .loading k → k = evs.count .loadReturned + 1) ∧
    ∀ k e, s.task = .loading k → (loader.Certificate k).2 = some e →
      ∃ s', step s .loadReturned = some s' ∧ s'.t.certificate = s.t.certificate := by
  have hI0 := Inv_New pkg loader interval hnew
  have hI := Inv_run evs _ s hI0 hrun
  have hc := run_completed evs _ s hI0 hrun
  rw [(completed_New pkg loader interval hnew).1] at hc
  obtain ⟨hR, hC⟩ := New_client_some pkg loader interval hnew
  have hl : s.t.loader = loader := by
    rw [(run_frame evs _ s hrun).2.2.1, (New_ok pkg loader interval hR hC).2.2]
  have hcert : s.t.certificate = lastLoaded loader (evs.count .loadReturned) := by
    have := hI.cert
    rw [hc, hl] at this
    simpa using this
  refine ⟨hcert, hcert, ?_, ?_⟩
  · intro k hk
    have := hI.inflight k hk
    simp only [completed, hk] at hc
    omega
  · intro k e hk he
    refine ⟨{ s with t := writeBack s.pkg s.t (s.t.loader.Certificate k), task := .selecting },
      ?_, ?_⟩
    · simp [step, hI.noPanic, hk]
    · rw [hl]
      exact (writeBack_fail _ _ _ e he).1

/-- C1, an instance: the second refresh fails, so the certificate of the first refresh
(address 2) stays cached. -/
theorem cache_holds_last_successful_load_witness :
    ∃ s, run (NewClient loaderFlaky 5).sys scheduleThree = some s ∧
      s.t.certificate = some 2 ∧ (GetClientCertificate s.t).1 = some 2 :=
  ⟨_, rfl, (cache_holds_last_successful_load .config loaderFlaky 5 scheduleThree _ rfl rfl).1,
    (cache_holds_last_successful_load .config loaderFlaky 5 scheduleThree _ rfl rfl).2.1⟩

/-- C2: after every schedule of a successfully constructed credential, the error that
the `GetClientCertificate` callback returns is nil exactly when no refresh has
completed yet or the most recent completed refresh succeeded; when the most recent
completed refresh failed with `e`, it is `fmt.Errorf(rotateMsg + "%w", e)`, whose
`Unwrap` is `e`. -/
theorem callback_error_tracks_last_refresh (pkg : Pkg) (loader : Loader) (interval : Int)
    (evs : List Event) (s : System)
    (hnew : (New pkg loader interval).err = none)
    (hrun : run (New pkg loader interval).sys evs = some s) :
    ((GetClientCertificate s.t).2 = none ↔
      (evs.count .loadReturned = 0 ∨
        (loader.Certificate (evs.count .loadReturned)).2 = none)) ∧
    (∀ e, evs.count .loadReturned ≠ 0 →
      (loader.Certificate (evs.count .loadReturned)).2 = some e →
      (GetClientCertificate s.t).2 = some (.wrapf (rotateMsg pkg) e) ∧
      ((GetClientCertificate s.t).2.bind GoError.Unwrap) = some e) ∧
    (GetClientCertificate s.t).2 = lastErr pkg loader (evs.count .loadReturned) := by
  have hI0 := Inv_New pkg loader interval hnew
  have hI := Inv_run evs _ s hI0 hrun
  have hc := run_completed evs _ s hI0 hrun
  rw [(completed_New pkg loader interval hnew).1] at hc
  obtain ⟨hR, hC⟩ := New_client_some pkg loader interval hnew
  have hf := run_frame evs _ s hrun
  have hl : s.t.loader = loader := by
    rw [hf.2.2.1, (New_ok pkg loader interval hR hC).2.2]
  have hp : s.pkg = pkg := by
    rw [hf.1, (New_ok pkg loader interval hR hC).2.2]
  have herr : s.t.err = lastErr pkg loader (evs.count .loadReturned) := by
    have := hI.err
    rw [hc, hl, hp] at this
    simpa using this
  simp only [GetClientCertificate]
  refine ⟨?_, ?_, herr⟩
  · rw [herr]
    cases hn : evs.count Event.loadReturned with
    | zero => simp [lastErr]
    | succ n =>
      rcases hr : (loader.Certificate (n + 1)).2 with _ | e <;> simp [lastErr, hr]
  · intro e hn he
    rw [herr]
    obtain ⟨n, hn'⟩ : ∃ n, evs.count Event.loadReturned = n + 1 :=
      ⟨evs.count Event.loadReturned - 1, by omega⟩
    rw [hn'] at he ⊢
    simp [lastErr, he, GoError.Unwrap]

/-- C2, an instance: after the third refresh, the second failure in a row, the callback
returns the wrapped error of that refresh. -/
theorem callback_error_tracks_last_refresh_witness :
    ∃ s, run (NewClient loaderFlaky 5).sys (scheduleFour.take 6) = some s ∧
      (GetClientCertificate s.t).2 =
        some (.wrapf "failed to load certificate: " (.base "connection refused")) :=
  ⟨_, rfl,
    ((callback_error_tracks_last_refresh .config loaderFlaky 5 (scheduleFour.take 6) _ rfl
      rfl).2.1 (.base "connection refused") (by decide) rfl).1⟩

/-! ## Shutdown -/

/-- Once the task has exited, a step changes neither the credential's cache nor its
counters, and makes no loader call. -/
theorem step_exited {s s' : System} {e : Event} (ht : s.task = .exited)
    (h : step s e = some s') :
    s'.task = .exited ∧ s'.t.certificate = s.t.certificate ∧ s'.t.err = s.t.err ∧
    s'.certCalls = s.certCalls ∧ s'.t.wg = s.t.wg ∧ s'.doneCalls = s.doneCalls ∧
    s'.panicked = s.panicked ∧ (s.t.ctxDone = true → s'.t.ctxDone = true) := by
  obtain ⟨_, h | ⟨k, h⟩ | h | h | h⟩ := step_cases h
  · obtain ⟨-, ht', -⟩ := h
    rw [ht] at ht'; exact absurd ht' (by simp)
  · obtain ⟨-, ht', -⟩ := h
    rw [ht] at ht'; exact absurd ht' (by simp)
  · obtain ⟨-, ht', -, -⟩ := h
    rw [ht] at ht'; exact absurd ht' (by simp)
  · obtain ⟨-, rfl⟩ := h
    simp [ht]
  · obtain ⟨-, -, -, rfl⟩ := h
    simp [ht]

theorem run_exited (evs : List Event) (s s' : System) (ht : s.task = .exited)
    (h : run s evs = some s') :
    s'.task = .exited ∧ s'.t.certificate = s.t.certificate ∧ s'.t.err = s.t.err ∧
    s'.certCalls = s.certCalls ∧ s'.t.wg = s.t.wg ∧ s'.doneCalls = s.doneCalls ∧
    s'.panicked = s.panicked ∧ (s.t.ctxDone = true → s'.t.ctxDone = true) := by
  refine run_preserves (fun x => x.task = .exited ∧ x.t.certificate = s.t.certificate ∧
    x.t.err = s.t.err ∧ x.certCalls = s.certCalls ∧ x.t.wg = s.t.wg ∧
    x.doneCalls = s.doneCalls ∧ x.panicked = s.panicked ∧
    (s.t.ctxDone = true → x.t.ctxDone = true)) ?_ evs s s'
    ⟨ht, rfl, rfl, rfl, rfl, rfl, rfl, id⟩ h
  intro a e b ha hab
  obtain ⟨h1, h2, h3, h4, h5, h6, h7, h8⟩ := step_exited ha.1 hab
  exact ⟨h1, h2.trans ha.2.1, h3.trans ha.2.2.1, h4.trans ha.2.2.2.1, h5.trans ha.2.2.2.2.1,
    h6.trans ha.2.2.2.2.2.1, h7.trans ha.2.2.2.2.2.2.1, fun hd => h8 (ha.2.2.2.2.2.2.2 hd)⟩

/-- The schedule of a `Stop()` call made while a load is in flight. -/
theorem run_stop_loading (s : System) (k : Nat) (hI : Inv s) (hk : s.task = .loading k) :
    ∃ s', run s [.stopCancel, .loadReturned, .ctxDone, .stopReturn] = some s' ∧ Stopped s' ∧
      s'.t.certificate = (writeBack s.pkg s.t (s.t.loader.Certificate k)).certificate ∧
      s'.t.err = (writeBack s.pkg s.t (s.t.loader.Certificate k)).err := by
  have hp := hI.noPanic
  have hw := (hI.liveWg (by simp [hk])).1
  simp [run, step, hp, hk, wgDone, hw, Stopped]
  constructor <;> (simp only [writeBack]; split <;> rfl)

/-- The schedule of a `Stop()` call made while the task waits in its select. -/
theorem run_stop_selecting (s : System) (hI : Inv s) (hk : s.task = .selecting) :
    ∃ s', run s [.stopCancel, .ctxDone, .stopReturn] = some s' ∧ Stopped s' ∧
      s'.t.certificate = s.t.certificate ∧ s'.t.err = s.t.err := by
  have hp := hI.noPanic
  have hw := (hI.liveWg (by simp [hk])).1
  simp [run, step, hp, hk, wgDone, hw, Stopped]

/-- The schedule of a `Stop()` call made after the task has exited. -/
theorem run_stop_exited (s : System) (hI : Inv s) (hk : s.task = .exited) :
    ∃ s', run s [.stopCancel, .stopReturn] = some s' ∧ Stopped s' ∧ s'.t = s.t ∧
      s'.waiters = s.waiters := by
  have hp := hI.noPanic
  obtain ⟨hw, -, hd⟩ := hI.exitedWg hk
  rcases s with ⟨pkg, ⟨i, l, c, tc, cd, wg, er⟩, task, n1, n2, n3, n4, w, p⟩
  simp only at hp hk hw hd
  subst hp hk hw hd
  simp [run, step, Stopped]

theorem writeBack_only_cache (pkg : Pkg) (t : Config) (r : CertPtr × Option GoError) :
    writeBack pkg t r =
      { t with certificate := (writeBack pkg t r).certificate, err := (writeBack pkg t r).err } := by
  rcases h : r.2 with _ | e <;> simp [writeBack, h]

/-- C5 as stated fails. A load is in flight when `Stop()` cancels the context; the pair
at that moment is (certificate 1, nil). With a load that returns certificate 2, the
pair after `Stop()` has returned is (certificate 2, nil); with the credential whose
cache holds certificate 2 and whose in-flight load fails, the pair after `Stop()` has
returned carries the wrapped error. -/
theorem cancelled_inflight_load_is_written :
    (run (NewClient loaderOK 5).sys [.timerFired, .stopCancel]).map
        (fun s => (s.task, s.t.ctxDone, GetClientCertificate s.t))
      = some (.loading 1, true, (some 1, none)) ∧
    (run (NewClient loaderOK 5).sys
        [.timerFired, .stopCancel, .loadReturned, .ctxDone, .stopReturn]).map
        (fun s => (s.task, s.t.wg, s.waiters, GetClientCertificate s.t))
      = some (.exited, 0, 0, (some 2, none)) ∧
    (run (NewConfig loaderFlaky 5).sys
        [.timerFired, .loadReturned, .timerFired, .stopCancel]).map
        (fun s => (s.task, s.t.ctxDone, GetClientCertificate s.t))
      = some (.loading 2, true, (some 2, none)) ∧
    (run (NewConfig loaderFlaky 5).sys
        [.timerFired, .loadReturned, .timerFired, .stopCancel, .loadReturned, .ctxDone,
         .stopReturn]).map
        (fun s => (s.task, s.t.wg, s.waiters, GetClientCertificate s.t))
      = some (.exited, 0, 0, (some 2, some (.wrapf
          "failed to load client certificate and key: " (.base "connection refused")))) :=
  ⟨rfl, rfl, rfl, rfl⟩

theorem GetClientCertificate_writeBack (pkg : Pkg) (t : Config)
    (r : CertPtr × Option GoError) :
    GetClientCertificate (writeBack pkg t r) = updatePair pkg (GetClientCertificate t) r := by
  rcases h : r.2 with _ | e <;> simp [GetClientCertificate, writeBack, updatePair, h]

theorem updatedBy_front (pkg : Pkg) (loader : Loader) (p : CertPtr × Option GoError)
    (c : Nat) : ∀ n, updatedBy pkg loader p c (n + 1) =
      updatedBy pkg loader (updatePair pkg p (loader.Certificate c)) (c + 1) n := by
  intro n
  induction n with
  | zero => simp [updatedBy]
  | succ n ih =>
    have hidx : c + 1 + n = c + (n + 1) := by omega
    calc updatedBy pkg loader p c (n + 1 + 1)
        = updatePair pkg (updatedBy pkg loader p c (n + 1)) (loader.Certificate (c + (n + 1))) :=
          rfl
      _ = updatePair pkg
            (updatedBy pkg loader (updatePair pkg p (loader.Certificate c)) (c + 1) n)
            (loader.Certificate (c + 1 + n)) := by rw [ih, hidx]
      _ = updatedBy pkg loader (updatePair pkg p (loader.Certificate c)) (c + 1) (n + 1) := rfl

/-- What one step does to the served pair: the return of a load writes the result of
the call in flight, every other step leaves the pair as it is. -/
theorem step_pair {s s' : System} {e : Event} (hI : Inv s) (h : step s e = some s') :
    (e = .loadReturned → GetClientCertificate s'.t =
      updatePair s.pkg (GetClientCertificate s.t) (s.t.loader.Certificate (completed s))) ∧
    (e ≠ .loadReturned → GetClientCertificate s'.t = GetClientCertificate s.t) := by
  obtain ⟨_, h | ⟨k, h⟩ | h | h | h⟩ := step_cases h
  · obtain ⟨rfl, -, rfl⟩ := h
    simp
  · obtain ⟨rfl, ht, rfl⟩ := h
    have hk := hI.inflight k ht
    have hc : completed s = k := by
      simp only [completed, ht]
      omega
    simp [hc, GetClientCertificate_writeBack]
  · obtain ⟨rfl, -, -, rfl⟩ := h
    simp [wgDone, GetClientCertificate]
    split <;> simp
  · obtain ⟨rfl, rfl⟩ := h
    simp [GetClientCertificate]
  · obtain ⟨rfl, -, -, rfl⟩ := h
    simp

/-- The served pair after a schedule is the pair before it updated, in call order, by
the results of the loads that returned during the schedule. -/
theorem run_pair : ∀ (evs : List Event) (s s' : System), Inv s → run s evs = some s' →
    GetClientCertificate s'.t =
      updatedBy s.pkg s.t.loader (GetClientCertificate s.t) (completed s)
        (evs.count .loadReturned) := by
  intro evs
  induction evs with
  | nil =>
    intro s s' _ h
    simp [run] at h
    simp [h, updatedBy]
  | cons e es ih =>
    intro s s' hI h
    obtain ⟨s1, h1, h2⟩ := run_cons_inv h
    have hf := step_frame h1
    have hc := step_completed hI h1
    have hp := step_pair hI h1
    rw [ih s1 s' (Inv_step s e s1 hI h1) h2, hf.1, hf.2.2.1, hc, List.count_cons]
    by_cases he : e = .loadReturned
    · rw [hp.1 he]
      simp only [he, if_true, beq_self_eq_true]
      exact (updatedBy_front _ _ _ _ _).symm
    · rw [hp.2 he]
      simp [he]

/-- A cancelled context stays cancelled. -/
theorem run_ctxDone (evs : List Event) (s s' : System) (hd : s.t.ctxDone = true)
    (h : run s evs = some s') : s'.t.ctxDone = true := by
  refine run_preserves (fun x => x.t.ctxDone = true) ?_ evs s s' hd h
  intro a e b ha hab
  obtain ⟨_, h | ⟨k, h⟩ | h | h | h⟩ := step_cases hab
  · obtain ⟨-, -, rfl⟩ := h
    exact ha
  · obtain ⟨-, -, rfl⟩ := h
    simpa using ha
  · obtain ⟨-, -, -, rfl⟩ := h
    simp [wgDone]
    split <;> simpa using ha
  · obtain ⟨-, rfl⟩ := h
    rfl
  · obtain ⟨-, -, -, rfl⟩ := h
    exact ha

/-- C5, amended: `rotate` looks at the context only in its select, not between the
return of `Certificate` and the write-back. Let `Stop()` cancel in any reachable
state `s` of a successfully constructed credential, and let any schedule follow. Then
the context stays cancelled and the pair served afterwards is the pair at
cancellation updated, in call order, by the results of the loads that returned since
(the call number `completed s` first); it is the pair at cancellation when no load
returned since. If a load (call `k`) was in flight at cancellation: the task has not
exited before that load has returned; when it is the only load that returned, the
pair is (the loaded certificate, nil) on success and (the certificate cached at
cancellation, the wrapped error) on failure; and the schedule in which the load
returns, the task exits and `Stop()` returns can happen. If the task waited in its
select, the schedule in which it exits through the cancellation case can happen and
leaves the pair at cancellation. `Stop()` returns only in the state Stopped, and once
the task has exited no later schedule changes the pair. -/
theorem cancellation_does_not_stop_write_back (pkg : Pkg) (loader : Loader) (interval : Int)
    (evs : List Event) (s : System) (evs' : List Event) (s' : System)
    (hnew : (New pkg loader interval).err = none)
    (hrun : run (New pkg loader interval).sys evs = some s)
    (hstop : run s (.stopCancel :: evs') = some s') :
    s'.t.ctxDone = true ∧
    GetClientCertificate s'.t =
      updatedBy pkg loader (GetClientCertificate s.t) (completed s)
        (evs'.count .loadReturned) ∧
    (evs'.count .loadReturned = 0 → GetClientCertificate s'.t = GetClientCertificate s.t) ∧
    (∀ k, s.task = .loading k →
      k = completed s ∧
      (s'.task = .exited → 1 ≤ evs'.count .loadReturned) ∧
      (evs'.count .loadReturned = 1 →
        ((loader.Certificate k).2 = none →
          GetClientCertificate s'.t = ((loader.Certificate k).1, none)) ∧
        (∀ e, (loader.Certificate k).2 = some e →
          GetClientCertificate s'.t = (s.t.certificate, some (.wrapf (rotateMsg pkg) e)))) ∧
      ∃ s'', run s [.stopCancel, .loadReturned, .ctxDone, .stopReturn] = some s'' ∧
        Stopped s'') ∧
    (s.task = .selecting →
      ∃ s'', run s [.stopCancel, .ctxDone, .stopReturn] = some s'' ∧ Stopped s'' ∧
        GetClientCertificate s''.t = GetClientCertificate s.t) ∧
    (∀ s'', step s' .stopReturn = some s'' → Stopped s'') ∧
    (s'.task = .exited → ∀ (evs'' : List Event) (s'' : System), run s' evs'' = some s'' →
      GetClientCertificate s''.t = GetClientCertificate s'.t) := by
  have hI0 := Inv_New pkg loader interval hnew
  have hI := Inv_run evs _ s hI0 hrun
  have hI' := Inv_run _ s s' hI hstop
  obtain ⟨hR, hC⟩ := New_client_some pkg loader interval hnew
  have hf := run_frame evs _ s hrun
  have hl : s.t.loader = loader := by
    rw [hf.2.2.1, (New_ok pkg loader interval hR hC).2.2]
  have hp : s.pkg = pkg := by
    rw [hf.1, (New_ok pkg loader interval hR hC).2.2]
  have hcount : (Event.stopCancel :: evs').count .loadReturned = evs'.count .loadReturned := by
    simp [List.count_cons]
  have hpair := run_pair _ s s' hI hstop
  rw [hcount, hp, hl] at hpair
  have hcomp := run_completed _ s s' hI hstop
  rw [hcount] at hcomp
  have hcalls := run_certCalls _ s s' hstop
  obtain ⟨s1, hs1, hrest⟩ := run_cons_inv hstop
  have hd1 : s1.t.ctxDone = true := by
    obtain ⟨_, h | ⟨k, h⟩ | h | h | h⟩ := step_cases hs1
    · exact absurd h.1 (by simp)
    · exact absurd h.1 (by simp)
    · exact absurd h.1 (by simp)
    · obtain ⟨-, rfl⟩ := h
      rfl
    · exact absurd h.1 (by simp)
  have hd' : s'.t.ctxDone = true := run_ctxDone evs' s1 s' hd1 hrest
  refine ⟨hd', hpair, ?_, ?_, ?_, ?_, ?_⟩
  · intro h0
    rw [hpair, h0]
    rfl
  · intro k hk
    have hin := hI.inflight k hk
    have hck : completed s = k := by
      simp only [completed, hk]
      omega
    refine ⟨hck.symm, ?_, ?_, ?_⟩
    · intro hex
      have hc' : completed s' = s'.certCalls := by simp [completed, hex]
      omega
    · intro h1
      rw [h1, hck] at hpair
      constructor
      · intro hr
        rw [hpair]
        simp [updatedBy, updatePair, hr]
      · intro e hr
        rw [hpair]
        simp [updatedBy, updatePair, hr, GetClientCertificate]
    · obtain ⟨s'', h1, h2, -⟩ := run_stop_loading s k hI hk
      exact ⟨s'', h1, h2⟩
  · intro hk
    obtain ⟨s'', h1, h2, h3, h4⟩ := run_stop_selecting s hI hk
    exact ⟨s'', h1, h2, by simp only [GetClientCertificate, h3, h4]⟩
  · intro s'' hs''
    obtain ⟨_, h | ⟨k, h⟩ | h | h | h⟩ := step_cases hs''
    · exact absurd h.1 (by simp)
    · exact absurd h.1 (by simp)
    · exact absurd h.1 (by simp)
    · exact absurd h.1 (by simp)
    · obtain ⟨-, -, h0, rfl⟩ := h
      have hex : s'.task = .exited := by
        by_contra hne
        have := (hI'.liveWg hne).1
        omega
      exact ⟨hd', hex, h0⟩
  · intro hex evs'' s'' hs''
    obtain ⟨-, a, b, -⟩ := run_exited evs'' s' s'' hex hs''
    simp only [GetClientCertificate, a, b]

/-- C5 amended, an instance: `Stop()` cancels while the first refresh is in flight; that
load returns, the timer case is taken once more and the second load returns too
before the task exits. The pair served after `Stop()` is the pair at cancellation
updated by both results: certificate 3 without error. -/
theorem cancellation_does_not_stop_write_back_witness :
    ∃ s s', run (NewClient loaderOK 5).sys [.timerFired] = some s ∧
      run s (.stopCancel :: scheduleAfterCancel) = some s' ∧
      Stopped s' ∧
      GetClientCertificate s.t = (some 1, none) ∧
      GetClientCertificate s'.t = (some 3, none) :=
  ⟨_, _, rfl, rfl, by decide, rfl,
    (cancellation_does_not_stop_write_back .config loaderOK 5 [.timerFired] _
      scheduleAfterCancel _ rfl rfl rfl).2.1⟩

/-- C6: in every reachable state of a successfully constructed credential there has
been no panic, the wait-group counter is 1 while the task lives and 0 once it has
exited, and `wg.Done()` has run at most once (exactly once, after cancellation, when
the task has exited). The `wg.Wait()` of a `Stop()` returns only in the state Stopped.
A `Stop()` can always complete: after its `cancel` the task exits within two steps
and `Stop()` returns, in the state Stopped. Stopped is terminal: every schedule from it
stays Stopped, without panic, with the counter at zero, the same number of loader calls
and `wg.Done()` calls and the same cache; and a later `Stop()` returns at once, leaving
the credential as it was. -/
theorem stop_idempotent (pkg : Pkg) (loader : Loader) (interval : Int)
    (evs : List Event) (s : System)
    (hnew : (New pkg loader interval).err = none)
    (hrun : run (New pkg loader interval).sys evs = some s) :
    s.panicked = false ∧ 0 ≤ s.t.wg ∧ s.doneCalls ≤ 1 ∧ s.tasksStarted = 1 ∧
    (s.task = .exited ↔ s.t.wg = 0) ∧
    (s.task = .exited → s.doneCalls = 1 ∧ s.t.ctxDone = true) ∧
    (∀ s', step s .stopReturn = some s' → Stopped s' ∧ s'.doneCalls = 1) ∧
    (∃ mid s', mid.length ≤ 2 ∧
      run s (.stopCancel :: (mid ++ [.stopReturn])) = some s' ∧ Stopped s') ∧
    (Stopped s →
      (∀ (evs' : List Event) (s' : System), run s evs' = some s' →
        Stopped s' ∧ s'.panicked = false ∧ s'.doneCalls = 1 ∧
        s'.certCalls = s.certCalls ∧ s'.rootCACalls = s.rootCACalls ∧
        GetClientCertificate s'.t = GetClientCertificate s.t) ∧
      ∃ s', run s [.stopCancel, .stopReturn] = some s' ∧ Stopped s' ∧ s'.t = s.t) := by
  have hI0 := Inv_New pkg loader interval hnew
  have hI := Inv_run evs _ s hI0 hrun
  have hwg : s.task = .exited ↔ s.t.wg = 0 := by
    constructor
    · intro h; exact (hI.exitedWg h).1
    · intro h
      by_contra hne
      have := (hI.liveWg hne).1
      omega
  have hex : s.task = .exited → s.doneCalls = 1 ∧ s.t.ctxDone = true :=
    fun h => ⟨(hI.exitedWg h).2.1, (hI.exitedWg h).2.2⟩
  refine ⟨hI.noPanic, ?_, ?_, hI.once.1, hwg, hex, ?_, ?_, ?_⟩
  · by_cases h : s.task = .exited
    · rw [(hI.exitedWg h).1]
    · rw [(hI.liveWg h).1]; decide
  · by_cases h : s.task = .exited
    · rw [(hI.exitedWg h).2.1]
    · rw [(hI.liveWg h).2]; decide
  · intro s' hs'
    obtain ⟨_, h | ⟨k, h⟩ | h | h | h⟩ := step_cases hs'
    · exact absurd h.1 (by simp)
    · exact absurd h.1 (by simp)
    · exact absurd h.1 (by simp)
    · exact absurd h.1 (by simp)
    · obtain ⟨-, -, h0, rfl⟩ := h
      have ht := hwg.2 h0
      exact ⟨⟨(hex ht).2, ht, h0⟩, (hex ht).1⟩
  · cases ht : s.task with
    | notStarted => exact absurd ht hI.started
    | selecting =>
      obtain ⟨s', h1, h2, -⟩ := run_stop_selecting s hI ht
      exact ⟨[.ctxDone], s', by simp, h1, h2⟩
    | loading k =>
      obtain ⟨s', h1, h2, -⟩ := run_stop_loading s k hI ht
      exact ⟨[.loadReturned, .ctxDone], s', by simp, h1, h2⟩
    | exited =>
      obtain ⟨s', h1, h2, -⟩ := run_stop_exited s hI ht
      exact ⟨[], s', by simp, h1, h2⟩
  · intro hS
    constructor
    · intro evs' s' hs'
      obtain ⟨a, b, c, d, e, f, g, h⟩ := run_exited evs' s s' hS.2.1 hs'
      have hfr := run_frame evs' s s' hs'
      refine ⟨⟨h hS.1, a, e.trans hS.2.2⟩, g.trans hI.noPanic, f.trans (hex hS.2.1).1, d,
        hfr.2.2.2.2.1, ?_⟩
      simp only [GetClientCertificate, b, c]
    · obtain ⟨s', h1, h2, h3, -⟩ := run_stop_exited s hI hS.2.1
      exact ⟨s', h1, h2, h3⟩

/-- C6, an instance: `Stop()` is called while the first refresh is in flight, and then
called again. -/
theorem stop_idempotent_witness :
    ∃ s s', run (NewClient loaderOK 5).sys
        [.timerFired, .stopCancel, .loadReturned, .ctxDone, .stopReturn] = some s ∧
      Stopped s ∧ s.panicked = false ∧ s.doneCalls ≤ 1 ∧
      run s [.stopCancel, .stopReturn] = some s' ∧ Stopped s' ∧ s'.t = s.t := by
  have h := stop_idempotent .config loaderOK 5
    [.timerFired, .stopCancel, .loadReturned, .ctxDone, .stopReturn] _ rfl rfl
  have hS : Stopped _ := ⟨rfl, h.2.2.2.2.1.2 rfl, rfl⟩
  obtain ⟨s', h1, h2, h3⟩ := (h.2.2.2.2.2.2.2.2 hS).2
  exact ⟨_, s', rfl, hS, h.1, h.2.2.1, h1, h2, h3⟩

/-! ## Cadence and frame -/

/-- C7: after every schedule of a successfully constructed credential, whatever the
loader's calls return, `Certificate` has been called once more than the timer case
has been taken (once by the constructor, once per firing) and `RootCA` once; at most
one call is in flight; and the return of a load, failed or not, puts the task back in
its select without a further call, where the timer case can be taken again. -/
theorem interval_cadence (pkg : Pkg) (loader : Loader) (interval : Int)
    (evs : List Event) (s : System)
    (hnew : (New pkg loader interval).err = none)
    (hrun : run (New pkg loader interval).sys evs = some s) :
    s.certCalls = evs.count .timerFired + 1 ∧
    s.rootCACalls = 1 ∧
    completed s = evs.count .loadReturned + 1 ∧
    completed s ≤ s.certCalls ∧ s.certCalls ≤ completed s + 1 ∧
    ∀ s', step s .loadReturned = some s' →
      s'.task = .selecting ∧ s'.certCalls = s.certCalls ∧
      (step s' .timerFired).isSome = true := by
  have hI0 := Inv_New pkg loader interval hnew
  have hI := Inv_run evs _ s hI0 hrun
  have hc := run_completed evs _ s hI0 hrun
  have hn := run_certCalls evs _ s hrun
  rw [(completed_New pkg loader interval hnew).1] at hc
  rw [(completed_New pkg loader interval hnew).2] at hn
  refine ⟨by omega, hI.once.2, by omega, ?_, ?_, ?_⟩
  · unfold completed
    split <;> omega
  · cases ht : s.task with
    | loading k =>
      have := hI.inflight k ht
      simp only [completed, ht]
      omega
    | notStarted => simp [completed, ht]
    | selecting => simp [completed, ht]
    | exited => simp [completed, ht]
  · intro s' hs'
    obtain ⟨_, h | ⟨k, h⟩ | h | h | h⟩ := step_cases hs'
    · exact absurd h.1 (by simp)
    · obtain ⟨-, -, rfl⟩ := h
      simp [step, hI.noPanic]
    · exact absurd h.1 (by simp)
    · exact absurd h.1 (by simp)
    · exact absurd h.1 (by simp)

/-- C7, an instance: four timer firings with two failed refreshes give five calls. -/
theorem interval_cadence_witness :
    ∃ s, run (NewClient loaderFlaky 5).sys scheduleFour = some s ∧
      s.certCalls = 5 ∧ s.rootCACalls = 1 :=
  ⟨_, rfl, (interval_cadence .config loaderFlaky 5 scheduleFour _ rfl rfl).1,
    (interval_cadence .config loaderFlaky 5 scheduleFour _ rfl rfl).2.1⟩

/-- C9: after every schedule of refresh steps and `Stop()` steps of a successfully
constructed credential, the interval and the loader are those given to the
constructor, `Config()` returns what it returned right after construction, namely the
configuration whose `RootCAs` is the pool returned by the one `RootCA` call. A step
of the refresh (the timer case, the write-back) changes no field of the credential
other than `certificate` and `err`; the steps of `Stop()` and the exit of the task
change neither of these two. -/
theorem refresh_and_stop_frame (pkg : Pkg) (loader : Loader) (interval : Int)
    (evs : List Event) (s : System)
    (hnew : (New pkg loader interval).err = none)
    (hrun : run (New pkg loader interval).sys evs = some s) :
    s.t.interval = interval ∧ s.t.loader = loader ∧
    s.t.Config = (New pkg loader interval).sys.t.Config ∧
    s.t.Config = some { RootCAs := loader.RootCA.1 } ∧
    s.rootCACalls = 1 ∧
    (∀ e s', step s e = some s' → e = .timerFired ∨ e = .loadReturned →
      s'.t = { s.t with certificate := s'.t.certificate, err := s'.t.err }) ∧
    (∀ e s', step s e = some s' → e = .ctxDone ∨ e = .stopCancel ∨ e = .stopReturn →
      s'.t.certificate = s.t.certificate ∧ s'.t.err = s.t.err) := by
  obtain ⟨hR, hC⟩ := New_client_some pkg loader interval hnew
  have hf := run_frame evs _ s hrun
  have h0 := (New_ok pkg loader interval hR hC).2.2
  refine ⟨?_, ?_, ?_, ?_, ?_, ?_, ?_⟩
  · rw [hf.2.1, h0]
  · rw [hf.2.2.1, h0]
  · simp only [Config.Config]
    exact hf.2.2.2.1
  · simp only [Config.Config]
    rw [hf.2.2.2.1, h0]
  · rw [hf.2.2.2.2.1, h0]
  · intro e s' hs' he
    obtain ⟨_, h | ⟨k, h⟩ | h | h | h⟩ := step_cases hs'
    · obtain ⟨-, -, rfl⟩ := h
      rfl
    · obtain ⟨-, -, rfl⟩ := h
      exact writeBack_only_cache _ _ _
    · obtain ⟨rfl, -⟩ := h
      simp at he
    · obtain ⟨rfl, -⟩ := h
      simp at he
    · obtain ⟨rfl, -⟩ := h
      simp at he
  · intro e s' hs' he
    obtain ⟨_, h | ⟨k, h⟩ | h | h | h⟩ := step_cases hs'
    · obtain ⟨rfl, -⟩ := h
      simp at he
    · obtain ⟨rfl, -⟩ := h
      simp at he
    · obtain ⟨-, -, -, rfl⟩ := h
      unfold wgDone
      split <;> simp
    · obtain ⟨-, rfl⟩ := h
      simp
    · obtain ⟨-, -, -, rfl⟩ := h
      simp

/-- C9, an instance: two refreshes, one of them failed, and a `Stop()`. -/
theorem refresh_and_stop_frame_witness :
    ∃ s, run (NewClient loaderFlaky 5).sys
        scheduleStop = some s ∧
      s.t.interval = 5 ∧ s.t.Config = some { RootCAs := some 7 } ∧ s.rootCACalls = 1 :=
  ⟨_, rfl,
    (refresh_and_stop_frame .config loaderFlaky 5 scheduleStop _ rfl rfl).1,
    (refresh_and_stop_frame .config loaderFlaky 5 scheduleStop _ rfl rfl).2.2.2.1,
    (refresh_and_stop_frame .config loaderFlaky 5 scheduleStop _ rfl rfl).2.2.2.2.1⟩

/-! ## The lock discipline: invariant and atomic visibility -/

theorem countP_set_add {α : Type} (p : α → Bool) :
    ∀ (l : List α) (i : Nat) (c c' : α), l[i]? = some c →
      (l.set i c').countP p + (if p c then 1 else 0) =
        l.countP p + (if p c' then 1 else 0) := by
  intro l
  induction l with
  | nil => intro i c c' h; simp at h
  | cons a l ih =>
    intro i c c' h
    cases i with
    | zero =>
      simp at h
      subst h
      simp [List.countP_cons]
      omega
    | succ j =>
      simp at h
      have := ih j c c' h
      simp [List.countP_cons]
      omega

theorem mem_of_getElem?_eq {α : Type} {l : List α} {i : Nat} {c : α} (h : l[i]? = some c) :
    c ∈ l := by
  obtain ⟨hi, rfl⟩ := List.getElem?_eq_some.1 h
  exact List.getElem_mem _

theorem MInv_init (pkg : Pkg) (t : Config) (r : CertPtr × Option GoError) (n : Nat) :
    MInv pkg t r (Mem.init pkg t r n) := by
  constructor
  · exact ⟨rfl, rfl⟩
  · simp [Mem.init, List.countP_replicate, Call.holdsRLock]
  · simp [Mem.init]
  · simp [Mem.init]
  · intro _; exact ⟨rfl, rfl⟩
  · intro h; simp [Mem.init] at h
  · intro h; simp [Mem.init] at h
  · intro h; simp [Mem.init] at h
  · intro c hc
    simp [Mem.init] at hc
    obtain ⟨-, rfl⟩ := hc
    simp

/-- While a call holds the read lock, the cache is whole: it is the pair from before
the write-back or the pair from after it. -/
theorem MInv_stable {pkg : Pkg} {t : Config} {r : CertPtr × Option GoError} {m : Mem}
    (hI : MInv pkg t r m) {c : Call} (hc : c ∈ m.calls) (hh : c.holdsRLock = true) :
    m.writer = false ∧
    ((m.t.certificate, m.t.err) = GetClientCertificate t ∨
     (m.t.certificate, m.t.err) = GetClientCertificate (writeBack pkg t r)) := by
  have hpos : 0 < m.calls.countP Call.holdsRLock := List.countP_pos_iff.2 ⟨c, hc, hh⟩
  have hw : m.writer = false := by
    cases hmw : m.writer with
    | false => rfl
    | true =>
      have := hI.excl hmw
      rw [hI.count] at this
      omega
  refine ⟨hw, ?_⟩
  have hnw : ¬ (m.task = .atWriteCert ∨ m.task = .atWriteErr ∨ m.task = .atUnlock) := by
    intro h
    have := hI.wheld.2 h
    rw [hw] at this
    exact absurd this (by simp)
  cases ht : m.task with
  | atLock =>
    left
    simp [GetClientCertificate, hI.memLock ht]
  | atWriteCert => exact absurd (Or.inl ht) hnw
  | atWriteErr => exact absurd (Or.inr (Or.inl ht)) hnw
  | atUnlock => exact absurd (Or.inr (Or.inr ht)) hnw
  | done =>
    right
    simp [GetClientCertificate, hI.memDone (Or.inr ht)]

/-- While the write lock is held, no call is between its `RLock` and its `RUnlock`. -/
theorem MInv_noReader {pkg : Pkg} {t : Config} {r : CertPtr × Option GoError} {m : Mem}
    (hI : MInv pkg t r m) (hw : m.writer = true) :
    ∀ c ∈ m.calls, c.pc ≠ .atReadCert ∧ c.pc ≠ .atReadErr ∧ c.pc ≠ .atRUnlock := by
  intro c hc
  have h0 := hI.excl hw
  rw [hI.count] at h0
  have hn := List.countP_eq_zero.1 h0 c hc
  refine ⟨?_, ?_, ?_⟩ <;> intro hpc <;> exact hn (by simp [Call.holdsRLock, hpc])

theorem MInv_callStep {pkg : Pkg} {t : Config} {r : CertPtr × Option GoError} {m m' : Mem}
    {i : Nat} {c : Call} (hI : MInv pkg t r m) (hi : m.calls[i]? = some c)
    (h : callStep m i c = some m') : MInv pkg t r m' := by
  have hc := mem_of_getElem?_eq hi
  have hcnt := fun c' => countP_set_add Call.holdsRLock m.calls i c c' hi
  cases hpc : c.pc with
  | atRLock =>
    simp [callStep, hpc] at h
    obtain ⟨hw, rfl⟩ := h
    have h1 := hcnt { c with pc := .atReadCert }
    simp [Call.holdsRLock, hpc] at h1
    refine ⟨hI.fixed, ?_, hI.wheld, ?_, hI.memLock, hI.memCert, hI.memErr, hI.memDone, ?_⟩
    · simp only [h1, hI.count]
    · intro hw'
      simp only [hw] at hw'
      exact absurd hw' (by simp)
    · intro x hx
      rcases List.mem_or_eq_of_mem_set hx with hx | rfl
      · exact hI.calls x hx
      · simp
  | atReadCert =>
    simp [callStep, hpc] at h
    subst h
    have h1 := hcnt { c with pc := .atReadErr, cert := m.t.certificate }
    simp [Call.holdsRLock, hpc] at h1
    refine ⟨hI.fixed, ?_, hI.wheld, hI.excl, hI.memLock, hI.memCert, hI.memErr, hI.memDone, ?_⟩
    · simp only [h1, hI.count]
    · intro x hx
      rcases List.mem_or_eq_of_mem_set hx with hx | rfl
      · exact hI.calls x hx
      · simp
  | atReadErr =>
    simp [callStep, hpc] at h
    subst h
    have h1 := hcnt { c with pc := .atRUnlock, err := m.t.err }
    simp [Call.holdsRLock, hpc] at h1
    refine ⟨hI.fixed, ?_, hI.wheld, hI.excl, hI.memLock, hI.memCert, hI.memErr, hI.memDone, ?_⟩
    · simp only [h1, hI.count]
    · intro x hx
      rcases List.mem_or_eq_of_mem_set hx with hx | rfl
      · exact hI.calls x hx
      · simp
        exact (hI.calls c hc).1 hpc
  | atRUnlock =>
    simp [callStep, hpc] at h
    subst h
    have h1 := hcnt { c with pc := .returned }
    simp [Call.holdsRLock, hpc] at h1
    obtain ⟨hw, hst⟩ := MInv_stable hI hc (by simp [Call.holdsRLock, hpc])
    refine ⟨hI.fixed, ?_, hI.wheld, ?_, hI.memLock, hI.memCert, hI.memErr, hI.memDone, ?_⟩
    · have := hI.count
      simp only
      omega
    · intro hw'
      simp only [hw] at hw'
      exact absurd hw' (by simp)
    · intro x hx
      rcases List.mem_or_eq_of_mem_set hx with hx | rfl
      · exact hI.calls x hx
      · obtain ⟨hc1, hc2⟩ := (hI.calls c hc).2.1 hpc
        simp only [hc1, hc2]
        simpa using hst
  | returned =>
    simp [callStep, hpc] at h

theorem MInv_taskStep {pkg : Pkg} {t : Config} {r : CertPtr × Option GoError} {m m' : Mem}
    (hI : MInv pkg t r m) (h : taskStep m = some m') : MInv pkg t r m' := by
  obtain ⟨hpkg, hres⟩ := hI.fixed
  cases ht : m.task with
  | atLock =>
    obtain ⟨h1, h2⟩ := hI.memLock ht
    rcases hr : r.2 with _ | e
    · simp [taskStep, ht, hres, hr] at h
      obtain ⟨⟨hw, h0⟩, rfl⟩ := h
      refine ⟨⟨hpkg, rfl⟩, hI.count, by simp, fun _ => h0, by simp, fun _ => ⟨h1, h2, hr⟩,
        by simp, by simp, hI.calls⟩
    · simp [taskStep, ht, hres, hr] at h
      obtain ⟨⟨hw, h0⟩, rfl⟩ := h
      refine ⟨⟨hpkg, rfl⟩, hI.count, by simp, fun _ => h0, by simp, by simp,
        fun _ => ⟨?_, h2⟩, by simp, hI.calls⟩
      rw [(writeBack_fail pkg t r e hr).1]
      exact h1
  | atWriteCert =>
    obtain ⟨h1, h2, hr⟩ := hI.memCert ht
    have hw := hI.wheld.2 (Or.inl ht)
    have hno := MInv_noReader hI hw
    simp [taskStep, ht, hres] at h
    subst h
    refine ⟨⟨hpkg, rfl⟩, hI.count, ?_, hI.excl, by simp, by simp, fun _ => ⟨?_, h2⟩, by simp, ?_⟩
    · simp [hw]
    · rw [(writeBack_ok pkg t r hr).1]
    · intro x hx
      obtain ⟨-, n2, n3⟩ := hno x hx
      exact ⟨fun hx' => absurd hx' n2, fun hx' => absurd hx' n3, (hI.calls x hx).2.2⟩
  | atWriteErr =>
    obtain ⟨h1, h2⟩ := hI.memErr ht
    have hw := hI.wheld.2 (Or.inr (Or.inl ht))
    have hno := MInv_noReader hI hw
    have hcalls : ∀ (t' : Config) (x : Call), x ∈ m.calls →
        (x.pc = .atReadErr → x.cert = t'.certificate) ∧
        (x.pc = .atRUnlock → x.cert = t'.certificate ∧ x.err = t'.err) ∧
        (x.pc = .returned →
          (x.cert, x.err) = GetClientCertificate t ∨
          (x.cert, x.err) = GetClientCertificate (writeBack pkg t r)) := by
      intro t' x hx
      obtain ⟨-, n2, n3⟩ := hno x hx
      exact ⟨fun hx' => absurd hx' n2, fun hx' => absurd hx' n3, (hI.calls x hx).2.2⟩
    rcases hr : r.2 with _ | e
    · simp [taskStep, ht, hres, hr] at h
      subst h
      refine ⟨⟨hpkg, rfl⟩, hI.count, ?_, hI.excl, by simp, by simp, by simp,
        fun _ => ⟨h1, ?_⟩, hcalls _⟩
      · simp [hw]
      · rw [(writeBack_ok pkg t r hr).2]
    · simp [taskStep, ht, hres, hr] at h
      subst h
      refine ⟨⟨hpkg, rfl⟩, hI.count, ?_, hI.excl, by simp, by simp, by simp,
        fun _ => ⟨h1, ?_⟩, hcalls _⟩
      · simp [hw]
      · rw [(writeBack_fail pkg t r e hr).2, hpkg]
  | atUnlock =>
    obtain ⟨h1, h2⟩ := hI.memDone (Or.inl ht)
    simp [taskStep, ht] at h
    subst h
    refine ⟨hI.fixed, hI.count, by simp, by simp, by simp, by simp, by simp,
      fun _ => ⟨h1, h2⟩, hI.calls⟩
  | done =>
    simp [taskStep, ht] at h

theorem MInv_mstep {pkg : Pkg} {t : Config} {r : CertPtr × Option GoError} {m m' : Mem}
    {th : Thread} (hI : MInv pkg t r m) (h : mstep m th = some m') : MInv pkg t r m' := by
  cases th with
  | task => exact MInv_taskStep hI h
  | call i =>
    simp only [mstep] at h
    cases hi : m.calls[i]? with
    | none => simp [hi] at h
    | some c =>
      simp only [hi] at h
      exact MInv_callStep hI hi h

theorem MInv_mrun {pkg : Pkg} {t : Config} {r : CertPtr × Option GoError} :
    ∀ (ths : List Thread) (m m' : Mem), MInv pkg t r m → mrun m ths = some m' →
      MInv pkg t r m' := by
  intro ths
  induction ths with
  | nil =>
    intro m m' hI h
    simp [mrun] at h
    exact h ▸ hI
  | cons th ths ih =>
    intro m m' hI h
    cases hs : mstep m th with
    | none => simp [mrun, hs] at h
    | some m1 =>
      simp only [mrun, hs] at h
      exact ih m1 m' (MInv_mstep hI hs) h

/-- C10: in every interleaving of the statements of any number `n` of calls of the
`GetClientCertificate` closure with the statements of one write-back of `rotate`
(of a successful or of a failed load), every call that has returned has returned
either the pair (certificate, error) the credential held before the write-back or
the pair it holds after it. Moreover, while the write lock is held no call is
between its `RLock` and its `RUnlock`, and once the write-back is done the
credential holds the pair after the write-back. -/
theorem atomic_visibility (pkg : Pkg) (t : Config) (r : CertPtr × Option GoError) (n : Nat)
    (ths : List Thread) (m : Mem)
    (hrun : mrun (Mem.init pkg t r n) ths = some m) :
    (∀ c ∈ m.calls, c.pc = .returned →
      (c.cert, c.err) = GetClientCertificate t ∨
      (c.cert, c.err) = GetClientCertificate (writeBack pkg t r)) ∧
    (m.writer = true → ∀ c ∈ m.calls, c.holdsRLock = false) ∧
    (m.task = .done → GetClientCertificate m.t = GetClientCertificate (writeBack pkg t r)) := by
  have hI := MInv_mrun ths _ m (MInv_init pkg t r n) hrun
  refine ⟨fun c hc hret => (hI.calls c hc).2.2 hret, ?_, ?_⟩
  · intro hw c hc
    have h0 := hI.excl hw
    rw [hI.count] at h0
    have := List.countP_eq_zero.1 h0 c hc
    simpa using this
  · intro hd
    obtain ⟨h1, h2⟩ := hI.memDone (Or.inr hd)
    simp only [GetClientCertificate, h1, h2]

/-- C10, an instance: two calls and the write-back of certificate 5 over a cached
error; the call 1, which starts after the write-back, returns the new pair. -/
theorem atomic_visibility_witness :
    ∃ m, mrun (Mem.init .config cachedFailed (some 5, none) 2) scheduleCallsAround = some m ∧
      m.calls = [⟨.returned, some 2, some (.wrapf "failed to load certificate: "
                    (.base "connection refused"))⟩,
                 ⟨.returned, some 5, none⟩] ∧
      ∀ c ∈ m.calls, c.pc = .returned →
        (c.cert, c.err) = GetClientCertificate cachedFailed ∨
        (c.cert, c.err) = GetClientCertificate (writeBack .config cachedFailed (some 5, none)) :=
  ⟨_, rfl, rfl,
    (atomic_visibility .config cachedFailed (some 5, none) 2 scheduleCallsAround _ rfl).1⟩

end TLS
